import Mathlib

/-!
Verification of the directory-snapshot subsystem of the `Basic_File_Explorer_Rust`
file browser (`src/main.rs`). The Rust code is shallowly embedded: paths become
lists of OS-string components, `SystemTime` becomes a `Nat` timestamp, `u64`
sizes become `Nat`, and the live filesystem (`Path::is_dir`, `std::fs::metadata`,
the `WalkDir` iterator, `SystemTime::now`) is passed in as explicit parameters.
Rust's `to_lowercase` is passed in as an abstract per-string function `lower`,
since the claims quantify over the code's own notion of case-insensitivity.
-/

namespace FileExplorer

/-- An OS string (Rust `OsStr`): a byte sequence, together with the result of
`to_str` (`some` of the decoded character list when the bytes are valid UTF-8,
`none` otherwise). Comparison (`OsStr::cmp`) is by bytes. -/
structure OsStrM where
  bytes : List Nat
  decoded : Option (List Char)
deriving DecidableEq

/-- A Rust `PathBuf`, modelled as its list of normal components (absolute,
root implicit). -/
structure PathM where
  components : List OsStrM
deriving DecidableEq

/-- `Path::file_name`: the last component, `none` for the root. -/
def PathM.fileName (p : PathM) : Option OsStrM :=
  p.components.getLast?

/-- `Path::parent`: drop the last component; `none` for the root. -/
def PathM.parent (p : PathM) : Option PathM :=
  match p.components with
  | [] => none
  | _ :: _ => some ⟨p.components.dropLast⟩

/-- `Path::starts_with`: component-wise prefix test (equality included). -/
def PathM.startsWith (p base : PathM) : Bool :=
  base.components.isPrefixOf p.components

/-- `path.file_name().and_then(|n| n.to_str())` as used by the filter code. -/
def PathM.decodedName (p : PathM) : Option (List Char) :=
  p.fileName.bind OsStrM.decoded

/-- The `FileEntry` struct of `main.rs` (`modified: SystemTime` as `Nat`). -/
structure FileEntry where
  path : PathM
  size : Nat
  modified : Nat
deriving DecidableEq

/-- The `SortMode` enum of `main.rs`. -/
inductive SortMode
  | NameAsc
  | NameDesc
  | SizeAsc
  | SizeDesc
  | DateAsc
  | DateDesc
deriving DecidableEq

/-- The `DialogState` enum of `main.rs`. -/
inductive DialogState
  | None
  | Create
  | Delete
  | Properties
deriving DecidableEq

/-- The `FileProperties` struct of `main.rs` (`SystemTime` as `Nat`). -/
structure FileProperties where
  path : PathM
  file_type : String
  size : Nat
  modified : Nat
  created : Option Nat
  permissions : String
deriving DecidableEq

/-- Result of a successful `std::fs::metadata` call: `len()`, and the
fallible `modified()` / `created()` accessors, the unix permission mode
bits and the `readonly` flag. -/
structure Metadata where
  len : Nat
  modified : Option Nat
  created : Option Nat
  mode : Nat
  readonly : Bool
deriving DecidableEq

/-! ## Byte-wise and option-wise comparison (Rust `Ord` on `OsStr` and
`Option<&OsStr>`) -/

/-- Lexicographic comparison of byte sequences, Rust `OsStr::cmp`. -/
def cmpBytes : List Nat → List Nat → Ordering
  | [], [] => .eq
  | [], _ :: _ => .lt
  | _ :: _, [] => .gt
  | a :: as_, b :: bs =>
    match compare a b with
    | .eq => cmpBytes as_ bs
    | o => o

/-- Rust `Option::cmp`: `None` sorts before `Some`. -/
def cmpOptOsStr : Option OsStrM → Option OsStrM → Ordering
  | none, none => .eq
  | none, some _ => .lt
  | some _, none => .gt
  | some a, some b => cmpBytes a.bytes b.bytes

/-- `a.path.file_name().cmp(&b.path.file_name())` from `sort_entries`. -/
def fileNameCmp (a b : PathM) : Ordering :=
  cmpOptOsStr a.fileName b.fileName

/-! ## The sort engine (`FileManager::sort_entries`)

`is_dir` is a live filesystem query in the Rust code, so it is a parameter
`d : PathM → Bool` here. Each arm mirrors the corresponding `match` in the
Rust comparator closures. -/

/-- The comparator closure passed to `Vec::sort_by` for each `SortMode`. -/
def entryCmp (d : PathM → Bool) (mode : SortMode) (a b : FileEntry) : Ordering :=
  match mode with
  | .NameAsc =>
    match d a.path, d b.path with
    | true, false => .lt
    | false, true => .gt
    | _, _ => fileNameCmp a.path b.path
  | .NameDesc =>
    match d a.path, d b.path with
    | true, false => .lt
    | false, true => .gt
    | _, _ => fileNameCmp b.path a.path
  | .SizeAsc =>
    match d a.path, d b.path with
    | true, true => fileNameCmp a.path b.path
    | true, false => .lt
    | false, true => .gt
    | false, false => compare a.size b.size
  | .SizeDesc =>
    match d a.path, d b.path with
    | true, true => fileNameCmp a.path b.path
    | true, false => .lt
    | false, true => .gt
    | false, false => compare b.size a.size
  | .DateAsc =>
    match d a.path, d b.path with
    | true, false => .lt
    | false, true => .gt
    | _, _ => compare a.modified b.modified
  | .DateDesc =>
    match d a.path, d b.path with
    | true, false => .lt
    | false, true => .gt
    | _, _ => compare b.modified a.modified

/-- `Vec::sort_by(cmp)` puts the vector in nondecreasing order w.r.t. `cmp`;
the corresponding boolean "less or equal" relation. -/
def sortLe (d : PathM → Bool) (mode : SortMode) (a b : FileEntry) : Bool :=
  !(entryCmp d mode a b == .gt)

/-- `FileManager::sort_entries`: `Vec::sort_by` is a stable comparison sort
putting the vector in nondecreasing comparator order; modelled by the stable
`List.insertionSort` under the comparator's "not greater" relation. -/
def sort_entries (d : PathM → Bool) (mode : SortMode) (es : List FileEntry) :
    List FileEntry :=
  es.insertionSort (fun a b => sortLe d mode a b = true)

/-! ## Sort-mode toggling (`Message::SortByName/SortBySize/SortByDate`
handlers in `FileManager::update`) -/

/-- The `Message::SortByName` handler's mode update. -/
def sortByName (m : SortMode) : SortMode :=
  if m = .NameAsc then .NameDesc else .NameAsc

/-- The `Message::SortBySize` handler's mode update. -/
def sortBySize (m : SortMode) : SortMode :=
  if m = .SizeAsc then .SizeDesc else .SizeAsc

/-- The `Message::SortByDate` handler's mode update. -/
def sortByDate (m : SortMode) : SortMode :=
  if m = .DateAsc then .DateDesc else .DateAsc

/-- The three sort buttons (axes). -/
inductive Axis
  | name
  | size
  | date
deriving DecidableEq

/-- Dispatch a sort-button press to its handler. -/
def applySort : Axis → SortMode → SortMode
  | .name, m => sortByName m
  | .size, m => sortBySize m
  | .date, m => sortByDate m

/-- The axis of a `SortMode` (spec vocabulary for stating the toggle claim). -/
def axisOf : SortMode → Axis
  | .NameAsc | .NameDesc => .name
  | .SizeAsc | .SizeDesc => .size
  | .DateAsc | .DateDesc => .date

/-- Flip `Asc` and `Desc` on the same axis (spec vocabulary). -/
def flipDir : SortMode → SortMode
  | .NameAsc => .NameDesc
  | .NameDesc => .NameAsc
  | .SizeAsc => .SizeDesc
  | .SizeDesc => .SizeAsc
  | .DateAsc => .DateDesc
  | .DateDesc => .DateAsc

/-- The ascending mode of an axis (spec vocabulary). -/
def ascOf : Axis → SortMode
  | .name => .NameAsc
  | .size => .SizeAsc
  | .date => .DateAsc

/-! ## The filter pipeline (`FileManager::load_entries` and `is_hidden`) -/

/-- `fn is_hidden(path: &Path) -> bool`. -/
def is_hidden (p : PathM) : Bool :=
  ((p.fileName.bind OsStrM.decoded).map
    (fun name =>
      match name with
      | '.' :: _ => true
      | _ => false)).getD false

/-- `String::starts_with('.')` on the query. -/
def startsWithDot (s : List Char) : Bool :=
  match s with
  | '.' :: _ => true
  | _ => false

/-- Rust `str::contains`: substring test. -/
def containsSubstr (hay needle : List Char) : Bool :=
  needle.isPrefixOf hay ||
    match hay with
    | [] => false
    | _ :: t => containsSubstr t needle

/-- The per-item body of the `load_entries` loop. `none` items are `Err`
results of the `WalkDir` iterator (skipped by `if let Ok`). `lower` models
`String::to_lowercase`, `meta` models `std::fs::metadata`, `now` the value of
`SystemTime::now()`. Returns the `FileEntry` pushed for the item, if any. -/
def processItem (lower : List Char → List Char) (meta : PathM → Option Metadata)
    (now : Nat) (currentDir : PathM) (query : List Char) :
    Option PathM → Option FileEntry
  | none => none
  | some p =>
    -- Skip the current directory
    if p = currentDir then none
    -- Skip hidden files unless explicitly searching for them
    else if is_hidden p && !startsWithDot query then none
    -- Apply search filter if query is not empty
    else if !query.isEmpty &&
        (match p.decodedName with
         | some name => !containsSubstr (lower name) (lower query)
         | none => false) then none
    else
      match meta p with
      | some m => some ⟨p, m.len, m.modified.getD now⟩
      | none => some ⟨p, 0, now⟩

/-- The collection phase of `FileManager::load_entries`: run the loop body
over the `WalkDir` items. -/
def collectEntries (lower : List Char → List Char) (meta : PathM → Option Metadata)
    (now : Nat) (currentDir : PathM) (query : List Char)
    (items : List (Option PathM)) : List FileEntry :=
  items.filterMap (processItem lower meta now currentDir query)

/-- `FileManager::load_entries`: collect, then `sort_entries`. -/
def load_entries (lower : List Char → List Char) (meta : PathM → Option Metadata)
    (now : Nat) (d : PathM → Bool) (mode : SortMode) (currentDir : PathM)
    (query : List Char) (items : List (Option PathM)) : List FileEntry :=
  sort_entries d mode (collectEntries lower meta now currentDir query items)

/-! ## Navigation guard (`Message::NavigateUp` handler) -/

/-- The `Message::NavigateUp` handler's effect on `current_dir`:
`if let Some(parent) = self.current_dir.parent() { if parent.starts_with(&self.home_dir) || parent == self.home_dir { self.current_dir = parent } }`. -/
def navigate_up (home cur : PathM) : PathM :=
  match cur.parent with
  | none => cur
  | some p => if p.startsWith home || decide (p = home) then p else cur

/-! ## Properties (`Message::ShowProperties` handler) -/

/-- Octal rendering of the unix mode bits, `format!("{:o}", mode & 0o777)`. -/
def octalString (n : Nat) : String :=
  String.mk (Nat.toDigits 8 n)

/-- The permission summary string: unix shows the octal mode, other
platforms a read-only/read-write label (`cfg!(unix)` as a parameter). -/
def permissionString (unix : Bool) (m : Metadata) : String :=
  if unix then octalString (m.mode &&& 0o777)
  else if m.readonly then "Read-only" else "Read-write"

/-- The `Message::ShowProperties` handler: given the selected entry, the
result of `metadata(path)` (`none` on `Err`), whether the path is a
directory, and the previous `properties`/`dialog` state, produce the new
`(properties, dialog)` pair. On a failed metadata read nothing changes. -/
def show_properties (unix : Bool) (now : Nat) (d : PathM → Bool)
    (meta : PathM → Option Metadata) (selected : Option PathM)
    (oldProps : Option FileProperties) (oldDialog : DialogState) :
    Option FileProperties × DialogState :=
  match selected with
  | none => (oldProps, oldDialog)
  | some path =>
    match meta path with
    | none => (oldProps, oldDialog)
    | some m =>
      (some { path := path
              file_type := if d path then "Directory" else "File"
              size := m.len
              modified := m.modified.getD now
              created := m.created
              permissions := permissionString unix m },
       DialogState.Properties)

/-! ## Sample data (concrete inputs for evaluating the definitions) -/

/-- OS string with byte 97 decoding to "a". -/
def osA : OsStrM := ⟨[97], some ['a']⟩

/-- OS string with byte 98 decoding to "b". -/
def osB : OsStrM := ⟨[98], some ['b']⟩

/-- OS string with byte 99 decoding to "c". -/
def osC : OsStrM := ⟨[99], some ['c']⟩

/-- OS string with byte 100 decoding to "d". -/
def osD : OsStrM := ⟨[100], some ['d']⟩

/-- Sample directory path `/a`. -/
def dirA : PathM := ⟨[osA]⟩

/-- Sample directory path `/b`. -/
def dirB : PathM := ⟨[osB]⟩

/-- Sample file path `/c`. -/
def fileC : PathM := ⟨[osC]⟩

/-- Sample file path `/d`. -/
def fileD : PathM := ⟨[osD]⟩

/-- Sample filesystem `is_dir` view: `/a` and `/b` are directories. -/
def sampleIsDir : PathM → Bool :=
  fun p => decide (p = dirA ∨ p = dirB)

/-- Sample snapshot: file `/c` (5 bytes), directories `/a`, `/b`,
file `/d` (9 bytes). -/
def sampleEntries : List FileEntry :=
  [⟨fileC, 5, 0⟩, ⟨dirA, 0, 0⟩, ⟨dirB, 0, 0⟩, ⟨fileD, 9, 0⟩]

/-- OS string with bytes 46, 97 decoding to the dotfile name ".a". -/
def osDotA : OsStrM := ⟨[46, 97], some ['.', 'a']⟩

/-- OS string with byte 255, not valid UTF-8 (no decoding). -/
def osRaw : OsStrM := ⟨[255], none⟩

/-- Sample hidden child `/a/.a`. -/
def pDot : PathM := ⟨[osA, osDotA]⟩

/-- Sample ordinary child `/a/b`. -/
def pChild : PathM := ⟨[osA, osB]⟩

/-- Sample child of `/a` with a non-UTF-8 name. -/
def pRaw : PathM := ⟨[osA, osRaw]⟩

/-! ## Comparator laws -/

theorem natCompare_swap (a b : Nat) : compare b a = (compare a b).swap := by
  rcases Nat.lt_trichotomy a b with h | h | h
  · have h1 : compare a b = .lt := Nat.compare_eq_lt.mpr h
    have h2 : compare b a = .gt := Nat.compare_eq_gt.mpr h
    simp [h1, h2, Ordering.swap]
  · subst h
    have h1 : compare a a = .eq := Nat.compare_eq_eq.mpr rfl
    simp [h1, Ordering.swap]
  · have h1 : compare a b = .gt := Nat.compare_eq_gt.mpr h
    have h2 : compare b a = .lt := Nat.compare_eq_lt.mpr h
    simp [h1, h2, Ordering.swap]

theorem natCompare_trans {x y z : Nat} (h1 : compare x y ≠ .gt)
    (h2 : compare y z ≠ .gt) : compare x z ≠ .gt := by
  intro h
  have hzx : z < x := Nat.compare_eq_gt.mp h
  have hxy : x ≤ y := by
    by_contra hc
    exact h1 (Nat.compare_eq_gt.mpr (Nat.lt_of_not_le hc))
  have hyz : y ≤ z := by
    by_contra hc
    exact h2 (Nat.compare_eq_gt.mpr (Nat.lt_of_not_le hc))
  exact Nat.lt_irrefl x (Nat.lt_of_le_of_lt (Nat.le_trans hxy hyz) hzx)

theorem cmpBytes_swap (a : List Nat) : ∀ b, cmpBytes b a = (cmpBytes a b).swap := by
  induction a with
  | nil =>
    intro b
    cases b <;> simp [cmpBytes, Ordering.swap]
  | cons x as ih =>
    intro b
    cases b with
    | nil => simp [cmpBytes, Ordering.swap]
    | cons y bs =>
      simp only [cmpBytes, natCompare_swap x y]
      cases compare x y <;> simp [Ordering.swap, ih bs]

theorem cmpBytes_trans {a b c : List Nat} (h1 : cmpBytes a b ≠ .gt)
    (h2 : cmpBytes b c ≠ .gt) : cmpBytes a c ≠ .gt := by
  induction a generalizing b c with
  | nil =>
    cases c <;> simp [cmpBytes]
  | cons x as ih =>
    cases b with
    | nil => simp [cmpBytes] at h1
    | cons y bs =>
      cases c with
      | nil => simp [cmpBytes] at h2
      | cons z cs =>
        simp only [cmpBytes] at h1 h2 ⊢
        rcases Nat.lt_trichotomy x y with hxy | hxy | hxy
        · rcases Nat.lt_trichotomy y z with hyz | hyz | hyz
          · simp [Nat.compare_eq_lt.mpr (Nat.lt_trans hxy hyz)]
          · subst hyz
            simp [Nat.compare_eq_lt.mpr hxy]
          · rw [Nat.compare_eq_gt.mpr hyz] at h2
            exact absurd rfl h2
        · subst hxy
          rw [Nat.compare_eq_eq.mpr rfl] at h1
          rcases Nat.lt_trichotomy x z with hyz | hyz | hyz
          · simp [Nat.compare_eq_lt.mpr hyz]
          · subst hyz
            rw [Nat.compare_eq_eq.mpr rfl] at h2 ⊢
            exact ih h1 h2
          · rw [Nat.compare_eq_gt.mpr hyz] at h2
            exact absurd rfl h2
        · rw [Nat.compare_eq_gt.mpr hxy] at h1
          exact absurd rfl h1

theorem cmpOptOsStr_swap (a b : Option OsStrM) :
    cmpOptOsStr b a = (cmpOptOsStr a b).swap := by
  cases a <;> cases b
  · rfl
  · rfl
  · rfl
  · exact cmpBytes_swap _ _

theorem cmpOptOsStr_trans {a b c : Option OsStrM} (h1 : cmpOptOsStr a b ≠ .gt)
    (h2 : cmpOptOsStr b c ≠ .gt) : cmpOptOsStr a c ≠ .gt := by
  cases a <;> cases b <;> cases c <;>
    simp_all [cmpOptOsStr] <;>
    exact cmpBytes_trans h1 h2

theorem fileNameCmp_swap (a b : PathM) :
    fileNameCmp b a = (fileNameCmp a b).swap :=
  cmpOptOsStr_swap a.fileName b.fileName

theorem fileNameCmp_trans {a b c : PathM} (h1 : fileNameCmp a b ≠ .gt)
    (h2 : fileNameCmp b c ≠ .gt) : fileNameCmp a c ≠ .gt :=
  cmpOptOsStr_trans h1 h2

theorem entryCmp_swap (d : PathM → Bool) (mode : SortMode) (a b : FileEntry) :
    entryCmp d mode b a = (entryCmp d mode a b).swap := by
  cases mode <;>
    rcases ha : d a.path <;> rcases hb : d b.path <;>
      simp only [entryCmp, ha, hb] <;>
      first
        | rfl
        | exact fileNameCmp_swap _ _
        | exact natCompare_swap _ _

theorem sortLe_total (d : PathM → Bool) (mode : SortMode) (a b : FileEntry) :
    (sortLe d mode a b || sortLe d mode b a) = true := by
  simp only [sortLe]
  rw [entryCmp_swap d mode a b]
  cases entryCmp d mode a b <;> rfl

theorem ordBeqGt_false_iff {o : Ordering} : ((o == Ordering.gt) = false) ↔ o ≠ Ordering.gt := by
  cases o <;> decide

theorem sortLe_trans (d : PathM → Bool) (mode : SortMode) (a b c : FileEntry)
    (h1 : sortLe d mode a b = true) (h2 : sortLe d mode b c = true) :
    sortLe d mode a c = true := by
  simp only [sortLe, Bool.not_eq_true', ordBeqGt_false_iff] at h1 h2 ⊢
  cases mode <;>
    rcases ha : d a.path <;> rcases hb : d b.path <;> rcases hc : d c.path <;>
      simp only [entryCmp, ha, hb, hc] at h1 h2 ⊢ <;>
      first
        | exact h1
        | exact h2
        | exact absurd rfl h1
        | exact absurd rfl h2
        | exact fileNameCmp_trans h1 h2
        | exact fileNameCmp_trans h2 h1
        | exact natCompare_trans h1 h2
        | exact natCompare_trans h2 h1

/-- `sort_entries` output is pairwise nondecreasing for the mode's comparator. -/
theorem sorted_sort_entries (d : PathM → Bool) (mode : SortMode)
    (es : List FileEntry) :
    List.Pairwise (fun a b => sortLe d mode a b = true) (sort_entries d mode es) := by
  haveI : IsTotal FileEntry (fun a b => sortLe d mode a b = true) :=
    ⟨fun a b => Bool.or_eq_true_iff.mp (sortLe_total d mode a b)⟩
  haveI : IsTrans FileEntry (fun a b => sortLe d mode a b = true) :=
    ⟨fun a b c => sortLe_trans d mode a b c⟩
  exact List.sorted_insertionSort _ es

/-- `sort_entries` is a permutation: membership in the snapshot is
membership in the collected list. -/
theorem mem_sort_entries (d : PathM → Bool) (mode : SortMode)
    (es : List FileEntry) (e : FileEntry) :
    e ∈ sort_entries d mode es ↔ e ∈ es :=
  (List.perm_insertionSort (fun a b => sortLe d mode a b = true) es).mem_iff

/-! ## Claim theorems: sort order -/

/-- C1: in the sorted snapshot, under every `SortMode`, every entry whose
path is a directory comes before every entry whose path is not a directory:
if the entry at a later position is a directory, so is every earlier one. -/
theorem dirs_sort_first (d : PathM → Bool) (mode : SortMode) (es : List FileEntry)
    (i j : Nat) (hi : i < (sort_entries d mode es).length)
    (hj : j < (sort_entries d mode es).length) (hij : i < j)
    (hdir : d ((sort_entries d mode es)[j]).path = true) :
    d ((sort_entries d mode es)[i]).path = true := by
  have hp := (List.pairwise_iff_getElem.mp (sorted_sort_entries d mode es)) i j hi hj hij
  by_contra hfalse
  have hfi : d ((sort_entries d mode es)[i]).path = false := by
    cases hdi : d ((sort_entries d mode es)[i]).path
    · rfl
    · exact absurd hdi hfalse
  have hgt : entryCmp d mode ((sort_entries d mode es)[i])
      ((sort_entries d mode es)[j]) = Ordering.gt := by
    cases mode <;> simp [entryCmp, hfi, hdir]
  rw [sortLe, hgt] at hp
  exact absurd hp (by decide)

/-- Witness for C1: on the sample snapshot sorted by `NameAsc`, the entry at
index 1 is a directory, and so is the one at index 0. -/
theorem dirs_sort_first_witness :
    sampleIsDir ((sort_entries sampleIsDir SortMode.NameAsc sampleEntries).get
      ⟨0, by decide⟩).path = true :=
  dirs_sort_first sampleIsDir SortMode.NameAsc sampleEntries 0 1
    (by decide) (by decide) (by decide) (by decide)

/-- C2: under `SizeAsc` and `SizeDesc`, directory entries among themselves
are ordered by file name ascending in both modes, while file entries among
themselves are ordered by size ascending in `SizeAsc` and descending in
`SizeDesc`. -/
theorem size_modes_subsort (d : PathM → Bool) (es : List FileEntry) (i j : Nat)
    (hiA : i < (sort_entries d SortMode.SizeAsc es).length)
    (hjA : j < (sort_entries d SortMode.SizeAsc es).length)
    (hiD : i < (sort_entries d SortMode.SizeDesc es).length)
    (hjD : j < (sort_entries d SortMode.SizeDesc es).length)
    (hij : i < j) :
    (d ((sort_entries d SortMode.SizeAsc es)[i]).path = true →
     d ((sort_entries d SortMode.SizeAsc es)[j]).path = true →
     fileNameCmp ((sort_entries d SortMode.SizeAsc es)[i]).path
       ((sort_entries d SortMode.SizeAsc es)[j]).path ≠ Ordering.gt) ∧
    (d ((sort_entries d SortMode.SizeDesc es)[i]).path = true →
     d ((sort_entries d SortMode.SizeDesc es)[j]).path = true →
     fileNameCmp ((sort_entries d SortMode.SizeDesc es)[i]).path
       ((sort_entries d SortMode.SizeDesc es)[j]).path ≠ Ordering.gt) ∧
    (d ((sort_entries d SortMode.SizeAsc es)[i]).path = false →
     d ((sort_entries d SortMode.SizeAsc es)[j]).path = false →
     ((sort_entries d SortMode.SizeAsc es)[i]).size ≤
       ((sort_entries d SortMode.SizeAsc es)[j]).size) ∧
    (d ((sort_entries d SortMode.SizeDesc es)[i]).path = false →
     d ((sort_entries d SortMode.SizeDesc es)[j]).path = false →
     ((sort_entries d SortMode.SizeDesc es)[j]).size ≤
       ((sort_entries d SortMode.SizeDesc es)[i]).size) := by
  have hpA := (List.pairwise_iff_getElem.mp
    (sorted_sort_entries d SortMode.SizeAsc es)) i j hiA hjA hij
  have hpD := (List.pairwise_iff_getElem.mp
    (sorted_sort_entries d SortMode.SizeDesc es)) i j hiD hjD hij
  simp only [sortLe, Bool.not_eq_true', ordBeqGt_false_iff] at hpA hpD
  refine ⟨?_, ?_, ?_, ?_⟩
  · intro h1 h2
    simpa [entryCmp, h1, h2] using hpA
  · intro h1 h2
    simpa [entryCmp, h1, h2] using hpD
  · intro h1 h2
    simp only [entryCmp, h1, h2] at hpA
    exact Nat.le_of_not_lt (fun hlt => hpA (Nat.compare_eq_gt.mpr hlt))
  · intro h1 h2
    simp only [entryCmp, h1, h2] at hpD
    exact Nat.le_of_not_lt (fun hlt => hpD (Nat.compare_eq_gt.mpr hlt))

/-- Witness for C2: on the sample snapshot, `SizeAsc` puts the two
directories first in name order and the two files in ascending size order;
`SizeDesc` puts the files in descending size order. -/
theorem size_modes_subsort_witness :
    fileNameCmp ((sort_entries sampleIsDir SortMode.SizeAsc sampleEntries).get
        ⟨0, by decide⟩).path
      ((sort_entries sampleIsDir SortMode.SizeAsc sampleEntries).get
        ⟨1, by decide⟩).path ≠ Ordering.gt ∧
    ((sort_entries sampleIsDir SortMode.SizeAsc sampleEntries).get
        ⟨2, by decide⟩).size ≤
      ((sort_entries sampleIsDir SortMode.SizeAsc sampleEntries).get
        ⟨3, by decide⟩).size ∧
    ((sort_entries sampleIsDir SortMode.SizeDesc sampleEntries).get
        ⟨3, by decide⟩).size ≤
      ((sort_entries sampleIsDir SortMode.SizeDesc sampleEntries).get
        ⟨2, by decide⟩).size :=
  ⟨(size_modes_subsort sampleIsDir sampleEntries 0 1
      (by decide) (by decide) (by decide) (by decide) (by decide)).1
      (by decide) (by decide),
   (size_modes_subsort sampleIsDir sampleEntries 2 3
      (by decide) (by decide) (by decide) (by decide) (by decide)).2.2.1
      (by decide) (by decide),
   (size_modes_subsort sampleIsDir sampleEntries 2 3
      (by decide) (by decide) (by decide) (by decide) (by decide)).2.2.2
      (by decide) (by decide)⟩

/-! ## Path helper lemmas -/

theorem isPrefixOf_self (l : List OsStrM) : l.isPrefixOf l = true := by
  induction l with
  | nil => rfl
  | cons a t ih => simp [List.isPrefixOf, ih]

theorem not_isPrefixOf_of_longer {l₁ l₂ : List OsStrM} (h : l₂.length < l₁.length) :
    l₁.isPrefixOf l₂ = false := by
  induction l₁ generalizing l₂ with
  | nil => simp at h
  | cons a t ih =>
    cases l₂ with
    | nil => rfl
    | cons b s =>
      have hs : s.length < t.length := by
        simp only [List.length_cons] at h
        omega
      simp [List.isPrefixOf, ih hs]

theorem navigate_up_home (home : PathM) : navigate_up home home = home := by
  obtain ⟨l⟩ := home
  cases l with
  | nil => rfl
  | cons a t =>
    have hlen : ((a :: t).dropLast).length < (a :: t).length := by
      simp only [List.length_dropLast, List.length_cons]
      omega
    have hpre : (a :: t).isPrefixOf ((a :: t).dropLast) = false :=
      not_isPrefixOf_of_longer hlen
    have hne : (⟨(a :: t).dropLast⟩ : PathM) ≠ ⟨a :: t⟩ := by
      intro he
      have hcomp : (a :: t).dropLast = a :: t := congrArg PathM.components he
      rw [hcomp] at hlen
      exact Nat.lt_irrefl _ hlen
    simp [navigate_up, PathM.parent, PathM.startsWith, hpre, hne]

/-! ## Claim theorems: sort-mode toggling, navigation, properties -/

/-- C3: pressing the sort button of the axis already active flips the
direction `Asc`↔`Desc`; pressing the button of a different axis selects that
axis in ascending direction; hence pressing the active axis's button twice
returns the `SortMode` to its original value. -/
theorem toggle_axis_spec (ax : Axis) (m : SortMode) :
    (axisOf m = ax → applySort ax m = flipDir m) ∧
    (axisOf m ≠ ax → applySort ax m = ascOf ax) ∧
    (axisOf m = ax → applySort ax (applySort ax m) = m) := by
  cases ax <;> cases m <;> decide

/-- Witness for C3: from `SizeAsc`, the size button flips to `SizeDesc` and a
second press returns to `SizeAsc`; the name button lands on `NameAsc`. -/
theorem toggle_axis_spec_witness :
    applySort Axis.size SortMode.SizeAsc = SortMode.SizeDesc ∧
    applySort Axis.size (applySort Axis.size SortMode.SizeAsc) = SortMode.SizeAsc ∧
    applySort Axis.name SortMode.SizeAsc = SortMode.NameAsc :=
  ⟨(toggle_axis_spec Axis.size SortMode.SizeAsc).1 (by decide),
   (toggle_axis_spec Axis.size SortMode.SizeAsc).2.2 (by decide),
   (toggle_axis_spec Axis.name SortMode.SizeAsc).2.1 (by decide)⟩

/-- C6: "navigate up" moves `current_dir` to its parent exactly when that
parent is the home root or a descendant of it (component-prefix test); when
the parent fails the check, or there is no parent, nothing changes — in
particular navigating up from the home root itself is a no-op. -/
theorem navigate_up_spec (home cur : PathM) :
    (∀ p, cur.parent = some p →
      (p.startsWith home = true → navigate_up home cur = p) ∧
      (p.startsWith home = false → navigate_up home cur = cur)) ∧
    (cur.parent = none → navigate_up home cur = cur) ∧
    navigate_up home home = home := by
  refine ⟨?_, ?_, navigate_up_home home⟩
  · intro p hp
    constructor
    · intro hs
      simp [navigate_up, hp, hs]
    · intro hs
      have hne : p ≠ home := by
        intro he
        rw [he] at hs
        rw [PathM.startsWith, isPrefixOf_self] at hs
        exact Bool.true_eq_false.mp hs
      simp [navigate_up, hp, hs, hne]
  · intro hn
    simp [navigate_up, hn]

/-- Witness for C6: home `/h`, current `/h/a/b`; the parent `/h/a` is inside
the home subtree so navigating up reaches it; from a current directory `/x`
whose parent `/` is outside, nothing changes. -/
theorem navigate_up_spec_witness :
    (⟨[⟨[104], some ['h']⟩, ⟨[97], some ['a']⟩, ⟨[98], some ['b']⟩]⟩ : PathM).parent =
      some ⟨[⟨[104], some ['h']⟩, ⟨[97], some ['a']⟩]⟩ ∧
    PathM.startsWith ⟨[⟨[104], some ['h']⟩, ⟨[97], some ['a']⟩]⟩ ⟨[⟨[104], some ['h']⟩]⟩ = true ∧
    navigate_up ⟨[⟨[104], some ['h']⟩]⟩ ⟨[⟨[104], some ['h']⟩, ⟨[97], some ['a']⟩, ⟨[98], some ['b']⟩]⟩ =
      ⟨[⟨[104], some ['h']⟩, ⟨[97], some ['a']⟩]⟩ ∧
    (⟨[⟨[120], some ['x']⟩]⟩ : PathM).parent = some ⟨[]⟩ ∧
    PathM.startsWith ⟨[]⟩ ⟨[⟨[104], some ['h']⟩]⟩ = false ∧
    navigate_up ⟨[⟨[104], some ['h']⟩]⟩ ⟨[⟨[120], some ['x']⟩]⟩ = ⟨[⟨[120], some ['x']⟩]⟩ :=
  ⟨by decide, by decide,
   ((navigate_up_spec ⟨[⟨[104], some ['h']⟩]⟩
      ⟨[⟨[104], some ['h']⟩, ⟨[97], some ['a']⟩, ⟨[98], some ['b']⟩]⟩).1
      ⟨[⟨[104], some ['h']⟩, ⟨[97], some ['a']⟩]⟩ (by decide)).1 (by decide),
   by decide, by decide,
   ((navigate_up_spec ⟨[⟨[104], some ['h']⟩]⟩ ⟨[⟨[120], some ['x']⟩]⟩).1
      ⟨[]⟩ (by decide)).2 (by decide)⟩

/-- C7: when `metadata(path)` fails, the ShowProperties handler changes
nothing — no `FileProperties` record is produced and the dialog is not
opened; when it succeeds with only `created` unavailable, the record is
populated with `created = none` and all other fields filled in. -/
theorem show_properties_spec (unix : Bool) (now : Nat) (d : PathM → Bool)
    (meta : PathM → Option Metadata) (p : PathM)
    (oldP : Option FileProperties) (oldD : DialogState) :
    (meta p = none →
      show_properties unix now d meta (some p) oldP oldD = (oldP, oldD)) ∧
    (∀ m, meta p = some m → m.created = none →
      show_properties unix now d meta (some p) oldP oldD =
        (some ⟨p, if d p then "Directory" else "File", m.len,
               m.modified.getD now, none, permissionString unix m⟩,
         DialogState.Properties)) := by
  constructor
  · intro h
    simp [show_properties, h]
  · intro m hm hc
    simp [show_properties, hm, hc]

/-- Witness for C7: a failing metadata read leaves the state untouched; a
successful read whose `created` is unavailable yields a record with
`created = none` and the remaining fields populated. -/
theorem show_properties_spec_witness :
    show_properties true 5 (fun _ => false) (fun _ => none)
        (some ⟨[⟨[97], some ['a']⟩]⟩) none DialogState.None =
      (none, DialogState.None) ∧
    show_properties true 5 (fun _ => false) (fun _ => some ⟨7, some 3, none, 420, false⟩)
        (some ⟨[⟨[97], some ['a']⟩]⟩) none DialogState.None =
      (some ⟨⟨[⟨[97], some ['a']⟩]⟩, "File", 7, 3, none,
         permissionString true ⟨7, some 3, none, 420, false⟩⟩,
       DialogState.Properties) :=
  ⟨(show_properties_spec true 5 (fun _ => false) (fun _ => none)
      ⟨[⟨[97], some ['a']⟩]⟩ none DialogState.None).1 rfl,
   (show_properties_spec true 5 (fun _ => false)
      (fun _ => some ⟨7, some 3, none, 420, false⟩)
      ⟨[⟨[97], some ['a']⟩]⟩ none DialogState.None).2
      ⟨7, some 3, none, 420, false⟩ rfl rfl⟩

/-! ## Filter-pipeline helper lemmas -/

theorem mem_load_entries (lower : List Char → List Char) (meta : PathM → Option Metadata)
    (now : Nat) (d : PathM → Bool) (mode : SortMode) (currentDir : PathM)
    (query : List Char) (items : List (Option PathM)) (e : FileEntry) :
    e ∈ load_entries lower meta now d mode currentDir query items ↔
      ∃ item ∈ items, processItem lower meta now currentDir query item = some e := by
  rw [load_entries, mem_sort_entries, collectEntries]
  exact List.mem_filterMap

theorem processItem_run (lower : List Char → List Char) (meta : PathM → Option Metadata)
    (now : Nat) (currentDir : PathM) (query : List Char) (p : PathM)
    (hne : p ≠ currentDir)
    (hhid : (is_hidden p && !startsWithDot query) = false)
    (hfil : (!query.isEmpty &&
      (match p.decodedName with
       | some name => !containsSubstr (lower name) (lower query)
       | none => false)) = false) :
    processItem lower meta now currentDir query (some p) =
      some (match meta p with
            | some m => ⟨p, m.len, m.modified.getD now⟩
            | none => ⟨p, 0, now⟩) := by
  simp only [processItem, if_neg hne, hhid, hfil, Bool.false_eq_true, if_false]
  cases meta p <;> rfl

theorem processItem_skip_hidden (lower : List Char → List Char)
    (meta : PathM → Option Metadata) (now : Nat) (currentDir : PathM)
    (query : List Char) (p : PathM) (hne : p ≠ currentDir)
    (hhid : (is_hidden p && !startsWithDot query) = true) :
    processItem lower meta now currentDir query (some p) = none := by
  simp [processItem, hne, hhid]

theorem processItem_skip_query (lower : List Char → List Char)
    (meta : PathM → Option Metadata) (now : Nat) (currentDir : PathM)
    (query : List Char) (p : PathM) (hne : p ≠ currentDir)
    (hhid : (is_hidden p && !startsWithDot query) = false)
    (hfil : (!query.isEmpty &&
      (match p.decodedName with
       | some name => !containsSubstr (lower name) (lower query)
       | none => false)) = true) :
    processItem lower meta now currentDir query (some p) = none := by
  simp [processItem, hne, hhid, hfil]

theorem processItem_some {lower : List Char → List Char} {meta : PathM → Option Metadata}
    {now : Nat} {currentDir : PathM} {query : List Char} {item : Option PathM}
    {e : FileEntry}
    (h : processItem lower meta now currentDir query item = some e) :
    item = some e.path ∧ e.path ≠ currentDir := by
  cases item with
  | none => exact Option.noConfusion h
  | some p =>
    by_cases h1 : p = currentDir
    · exact absurd h (by simp [processItem, h1])
    · have hep : e.path = p := by
        simp only [processItem] at h
        rw [if_neg h1] at h
        split at h
        · exact Option.noConfusion h
        · split at h
          · exact Option.noConfusion h
          · cases hm : meta p with
            | some m =>
              rw [hm] at h
              have h2 := Option.some.inj h
              rw [← h2]
            | none =>
              rw [hm] at h
              have h2 := Option.some.inj h
              rw [← h2]
      exact ⟨by rw [hep], hep ▸ h1⟩

theorem is_hidden_eq (p : PathM) :
    is_hidden p = (match p.decodedName with
                   | some name => startsWithDot name
                   | none => false) := by
  rw [is_hidden, PathM.decodedName]
  cases p.fileName.bind OsStrM.decoded <;> rfl

theorem isEmpty_false_of_startsDot {q : List Char} (h : startsWithDot q = true) :
    q.isEmpty = false := by
  cases q with
  | nil => simp [startsWithDot] at h
  | cons a t => rfl

theorem excluded_of_skip (lower : List Char → List Char) (meta : PathM → Option Metadata)
    (now : Nat) (d : PathM → Bool) (mode : SortMode) (currentDir : PathM)
    (query : List Char) (items : List (Option PathM)) (p : PathM)
    (hskip : processItem lower meta now currentDir query (some p) = none) :
    ∀ e ∈ load_entries lower meta now d mode currentDir query items, e.path ≠ p := by
  intro e he hep
  obtain ⟨it, hit, hpe⟩ :=
    (mem_load_entries lower meta now d mode currentDir query items e).mp he
  obtain ⟨hitp, -⟩ := processItem_some hpe
  rw [hitp, hep, hskip] at hpe
  exact Option.noConfusion hpe

theorem included_of_pass (lower : List Char → List Char) (meta : PathM → Option Metadata)
    (now : Nat) (d : PathM → Bool) (mode : SortMode) (currentDir : PathM)
    (query : List Char) (items : List (Option PathM)) (p : PathM)
    (hitem : some p ∈ items) (hne : p ≠ currentDir)
    (hhid : (is_hidden p && !startsWithDot query) = false)
    (hfil : (!query.isEmpty &&
      (match p.decodedName with
       | some name => !containsSubstr (lower name) (lower query)
       | none => false)) = false) :
    ∃ e ∈ load_entries lower meta now d mode currentDir query items, e.path = p := by
  refine ⟨(match meta p with
           | some m => ⟨p, m.len, m.modified.getD now⟩
           | none => ⟨p, 0, now⟩), ?_, ?_⟩
  · exact (mem_load_entries lower meta now d mode currentDir query items _).mpr
      ⟨some p, hitem, processItem_run lower meta now currentDir query p hne hhid hfil⟩
  · cases meta p <;> rfl

/-! ## Claim theorems: filter pipeline -/

/-- C4: an entry whose (decodable) file name starts with `.` is excluded
from the snapshot whenever the query does not start with `.` (including the
empty query), and is subject only to the ordinary substring filter when the
query does start with `.`. -/
theorem hidden_rule (lower : List Char → List Char) (meta : PathM → Option Metadata)
    (now : Nat) (d : PathM → Bool) (mode : SortMode) (currentDir : PathM)
    (query : List Char) (items : List (Option PathM)) (p : PathM) (name : List Char)
    (hitem : some p ∈ items) (hne : p ≠ currentDir)
    (hname : p.decodedName = some name) (hdot : startsWithDot name = true) :
    (startsWithDot query = false →
      ∀ e ∈ load_entries lower meta now d mode currentDir query items, e.path ≠ p) ∧
    (startsWithDot query = true →
      ((∃ e ∈ load_entries lower meta now d mode currentDir query items, e.path = p) ↔
        containsSubstr (lower name) (lower query) = true)) := by
  have hhid : is_hidden p = true := by
    rw [is_hidden_eq, hname]
    exact hdot
  constructor
  · intro hq
    exact excluded_of_skip lower meta now d mode currentDir query items p
      (processItem_skip_hidden lower meta now currentDir query p hne
        (by rw [hhid, hq]; rfl))
  · intro hq
    have hhidf : (is_hidden p && !startsWithDot query) = false := by
      rw [hq]
      simp
    constructor
    · rintro ⟨e, he, hep⟩
      by_contra hc
      have hcf : containsSubstr (lower name) (lower query) = false := by
        cases hcc : containsSubstr (lower name) (lower query)
        · rfl
        · exact absurd hcc hc
      have hfil : (!query.isEmpty &&
          (match p.decodedName with
           | some nm => !containsSubstr (lower nm) (lower query)
           | none => false)) = true := by
        simp [hname, hcf, isEmpty_false_of_startsDot hq]
      exact excluded_of_skip lower meta now d mode currentDir query items p
        (processItem_skip_query lower meta now currentDir query p hne hhidf hfil)
        e he hep
    · intro hc
      have hfil : (!query.isEmpty &&
          (match p.decodedName with
           | some nm => !containsSubstr (lower nm) (lower query)
           | none => false)) = false := by
        simp [hname, hc]
      exact included_of_pass lower meta now d mode currentDir query items p
        hitem hne hhidf hfil

/-- Witness for C4: the dotfile `/a/.a` is absent from the snapshot under
the empty query and present under the query ".". -/
theorem hidden_rule_witness :
    (∀ e ∈ load_entries (fun s => s) (fun _ => none) 7 sampleIsDir SortMode.NameAsc
        dirA [] [some pDot], e.path ≠ pDot) ∧
    (∃ e ∈ load_entries (fun s => s) (fun _ => none) 7 sampleIsDir SortMode.NameAsc
        dirA ['.'] [some pDot], e.path = pDot) :=
  ⟨(hidden_rule (fun s => s) (fun _ => none) 7 sampleIsDir SortMode.NameAsc
      dirA [] [some pDot] pDot ['.', 'a']
      (by decide) (by decide) (by decide) (by decide)).1 (by decide),
   ((hidden_rule (fun s => s) (fun _ => none) 7 sampleIsDir SortMode.NameAsc
      dirA ['.'] [some pDot] pDot ['.', 'a']
      (by decide) (by decide) (by decide) (by decide)).2 (by decide)).mpr (by decide)⟩

/-- C5: for a non-empty query, an entry (with decodable name, passing the
hidden rule) is kept exactly when its lowercased name contains the
lowercased query as a substring; for the empty query every such entry
passes with no name filtering. -/
theorem search_filter_spec (lower : List Char → List Char) (meta : PathM → Option Metadata)
    (now : Nat) (d : PathM → Bool) (mode : SortMode) (currentDir : PathM)
    (query : List Char) (items : List (Option PathM)) (p : PathM) (name : List Char)
    (hitem : some p ∈ items) (hne : p ≠ currentDir)
    (hname : p.decodedName = some name)
    (hpass : (is_hidden p && !startsWithDot query) = false) :
    (query ≠ [] →
      ((∃ e ∈ load_entries lower meta now d mode currentDir query items, e.path = p) ↔
        containsSubstr (lower name) (lower query) = true)) ∧
    (query = [] →
      ∃ e ∈ load_entries lower meta now d mode currentDir query items, e.path = p) := by
  constructor
  · intro hq
    have hqe : query.isEmpty = false := by
      cases query with
      | nil => exact absurd rfl hq
      | cons a t => rfl
    constructor
    · rintro ⟨e, he, hep⟩
      by_contra hc
      have hcf : containsSubstr (lower name) (lower query) = false := by
        cases hcc : containsSubstr (lower name) (lower query)
        · rfl
        · exact absurd hcc hc
      have hfil : (!query.isEmpty &&
          (match p.decodedName with
           | some nm => !containsSubstr (lower nm) (lower query)
           | none => false)) = true := by
        simp [hname, hcf, hqe]
      exact excluded_of_skip lower meta now d mode currentDir query items p
        (processItem_skip_query lower meta now currentDir query p hne hpass hfil)
        e he hep
    · intro hc
      have hfil : (!query.isEmpty &&
          (match p.decodedName with
           | some nm => !containsSubstr (lower nm) (lower query)
           | none => false)) = false := by
        simp [hname, hc]
      exact included_of_pass lower meta now d mode currentDir query items p
        hitem hne hpass hfil
  · intro hq
    have hfil : (!query.isEmpty &&
        (match p.decodedName with
         | some nm => !containsSubstr (lower nm) (lower query)
         | none => false)) = false := by
      simp [hq]
    exact included_of_pass lower meta now d mode currentDir query items p
      hitem hne hpass hfil

/-- Witness for C5: under query "b" the child `/a/b` is kept (its name
contains "b"); under the empty query it is kept with no name filtering. -/
theorem search_filter_spec_witness :
    (∃ e ∈ load_entries (fun s => s) (fun _ => none) 7 sampleIsDir SortMode.NameAsc
        dirA ['b'] [some pChild], e.path = pChild) ∧
    (∃ e ∈ load_entries (fun s => s) (fun _ => none) 7 sampleIsDir SortMode.NameAsc
        dirA [] [some pChild], e.path = pChild) :=
  ⟨((search_filter_spec (fun s => s) (fun _ => none) 7 sampleIsDir SortMode.NameAsc
      dirA ['b'] [some pChild] pChild ['b']
      (by decide) (by decide) (by decide) (by decide)).1 (by decide)).mpr (by decide),
   (search_filter_spec (fun s => s) (fun _ => none) 7 sampleIsDir SortMode.NameAsc
      dirA [] [some pChild] pChild ['b']
      (by decide) (by decide) (by decide) (by decide)).2 rfl⟩

/-- C8: a child whose metadata read fails is still included in the listing,
with size 0 and modified time equal to the current time. -/
theorem metadata_fallback (lower : List Char → List Char) (meta : PathM → Option Metadata)
    (now : Nat) (d : PathM → Bool) (mode : SortMode) (currentDir : PathM)
    (query : List Char) (items : List (Option PathM)) (p : PathM)
    (hitem : some p ∈ items) (hne : p ≠ currentDir)
    (hhid : (is_hidden p && !startsWithDot query) = false)
    (hfil : (!query.isEmpty &&
      (match p.decodedName with
       | some name => !containsSubstr (lower name) (lower query)
       | none => false)) = false)
    (hmeta : meta p = none) :
    (⟨p, 0, now⟩ : FileEntry) ∈
      load_entries lower meta now d mode currentDir query items := by
  refine (mem_load_entries lower meta now d mode currentDir query items _).mpr
    ⟨some p, hitem, ?_⟩
  rw [processItem_run lower meta now currentDir query p hne hhid hfil, hmeta]

/-- Witness for C8: with a metadata function that always fails, the child
`/a/b` appears in the listing as `⟨/a/b, 0, now⟩`. -/
theorem metadata_fallback_witness :
    (⟨pChild, 0, 7⟩ : FileEntry) ∈
      load_entries (fun s => s) (fun _ => none) 7 sampleIsDir SortMode.NameAsc
        dirA [] [some pChild] :=
  metadata_fallback (fun s => s) (fun _ => none) 7 sampleIsDir SortMode.NameAsc
    dirA [] [some pChild] pChild
    (by decide) (by decide) (by decide) (by decide) rfl

/-- C9: the listing of a directory never contains the directory itself, and
(assuming the depth-1 walk yields only the root and its immediate children)
every listed entry is an immediate child of the directory. -/
theorem listing_depth_one (lower : List Char → List Char) (meta : PathM → Option Metadata)
    (now : Nat) (d : PathM → Bool) (mode : SortMode) (currentDir : PathM)
    (query : List Char) (items : List (Option PathM))
    (hwalk : ∀ q : PathM, some q ∈ items →
      q = currentDir ∨ q.parent = some currentDir) :
    ∀ e ∈ load_entries lower meta now d mode currentDir query items,
      e.path ≠ currentDir ∧ e.path.parent = some currentDir := by
  intro e he
  obtain ⟨it, hit, hpe⟩ :=
    (mem_load_entries lower meta now d mode currentDir query items e).mp he
  obtain ⟨hitp, hnep⟩ := processItem_some hpe
  refine ⟨hnep, ?_⟩
  rcases hwalk e.path (hitp ▸ hit) with hcur | hpar
  · exact absurd hcur hnep
  · exact hpar

/-- Witness for C9: for the walk of `/a` yielding the root `/a` itself and
the child `/a/b`, the listed entry for `/a/b` differs from `/a` and has
parent `/a`. -/
theorem listing_depth_one_witness :
    (⟨pChild, 0, 7⟩ : FileEntry).path ≠ dirA ∧
    (⟨pChild, 0, 7⟩ : FileEntry).path.parent = some dirA :=
  listing_depth_one (fun s => s) (fun _ => none) 7 sampleIsDir SortMode.NameAsc
    dirA [] [some dirA, some pChild]
    (fun q hq => by
      rcases List.mem_cons.mp hq with h1 | h1
      · exact Or.inl (Option.some.inj h1)
      · exact Or.inr (by rw [Option.some.inj (List.mem_singleton.mp h1)]; decide))
    ⟨pChild, 0, 7⟩ (by decide)

/-- C10: a child whose file name is not valid UTF-8 is not treated as
hidden, and the substring filter does not apply to it: it is included in the
snapshot for every query. -/
theorem raw_name_included (lower : List Char → List Char) (meta : PathM → Option Metadata)
    (now : Nat) (d : PathM → Bool) (mode : SortMode) (currentDir : PathM)
    (query : List Char) (items : List (Option PathM)) (p : PathM)
    (hitem : some p ∈ items) (hne : p ≠ currentDir)
    (hraw : p.decodedName = none) :
    is_hidden p = false ∧
    ∃ e ∈ load_entries lower meta now d mode currentDir query items, e.path = p := by
  have hhidf : is_hidden p = false := by
    rw [is_hidden_eq, hraw]
  refine ⟨hhidf, ?_⟩
  have hhid : (is_hidden p && !startsWithDot query) = false := by
    rw [hhidf]
    rfl
  have hfil : (!query.isEmpty &&
      (match p.decodedName with
       | some name => !containsSubstr (lower name) (lower query)
       | none => false)) = false := by
    simp [hraw]
  exact included_of_pass lower meta now d mode currentDir query items p
    hitem hne hhid hfil

/-- Witness for C10: the child of `/a` with non-UTF-8 name (byte 255) is not
hidden and appears in the snapshot even under the query "z". -/
theorem raw_name_included_witness :
    is_hidden pRaw = false ∧
    ∃ e ∈ load_entries (fun s => s) (fun _ => none) 7 sampleIsDir SortMode.NameAsc
        dirA ['z'] [some pRaw], e.path = pRaw :=
  raw_name_included (fun s => s) (fun _ => none) 7 sampleIsDir SortMode.NameAsc
    dirA ['z'] [some pRaw] pRaw (by decide) (by decide) (by decide)

end FileExplorer
